import Mathlib

/-!
Verification of the Prometeo parallel download engine against its
natural-language specification.  Each definition below is a shallow
embedding of a function or code path of the TypeScript source
(`src/lib/manager.ts`, `src/lib/file.ts`, the connection module,
`src/utils/writeStream.ts`, and the URL utility module); machine numbers
are modelled as `Nat`/`Int`/`Rat` (JavaScript numbers are exact on the
integer ranges involved), strings as `String`/`List Char`.
-/

namespace Prometeo

/-! ## Range partitioning (src/lib/manager.ts, download, lines 348-359)

`const sliceSize = Math.floor(size / connections);`
`const startByte = i * sliceSize;`
`const endByte = i === connections - 1 ? size - 1 : startByte + sliceSize - 1;`
Byte offsets are `Int` because `endByte` can be `-1` when `size < connections`.
-/

def sliceSize (size conns : Nat) : Nat := size / conns

def startByte (size conns i : Nat) : Int := (i * sliceSize size conns : Nat)

def endByte (size conns i : Nat) : Int :=
  if i = conns - 1 then (size : Int) - 1
  else startByte size conns i + (sliceSize size conns : Int) - 1

/-- The list of `[startByte, endByte]` ranges built by `Manager.download`. -/
def buildParts (size conns : Nat) : List (Int × Int) :=
  (List.range conns).map (fun i => (startByte size conns i, endByte size conns i))

/-! ## Connection.start (connection module, lines 165-203)

`const partSize = fs.existsSync(file) ? fs.statSync(file).size : 0;`
`if (connection.range[0] + partSize >= connection.range[1]) { ... finish ... }`
otherwise a GET is issued with header
`Range: "bytes=" + (range[0] + partSize) + "-" + range[1]`.
-/

/-- Outcome of the first phase of `Connection.start`: either the part is
declared finished without any HTTP request, or a range GET is issued with
the given `Range` header value. -/
inductive ConnAction where
  | finishedEarly : ConnAction
  | request : String → ConnAction
  deriving DecidableEq, Repr

/-- The `Range` header value built by `Connection.start`. -/
def rangeHeader (startB endB existing : Int) : String :=
  "bytes=" ++ toString (startB + existing) ++ "-" ++ toString endB

/-- The short-circuit / request decision of `Connection.start`, as coded:
the guard is `range[0] + partSize >= range[1]`. -/
def connStart (startB endB existing : Int) : ConnAction :=
  if startB + existing ≥ endB then ConnAction.finishedEarly
  else ConnAction.request (rangeHeader startB endB existing)

end Prometeo

namespace Prometeo

/-! ### Theorems for the partition claims -/

/-- Claim C1: for every probed size ≥ 1 and connections count N ≥ 1,
`Manager.download` builds exactly N ranges with slice = ⌊size/N⌋,
`start[i] = i*slice`, `end[i] = start[i]+slice-1` for `i < N-1` and
`end[N-1] = size-1`; the ranges are contiguous and non-overlapping,
`start[0] = 0`, `end[N-1] = size-1`, and the lengths sum to `size`. -/
theorem download_partition_correct (size conns : Nat)
    (hs : 1 ≤ size) (hn : 1 ≤ conns) :
    (buildParts size conns).length = conns ∧
    startByte size conns 0 = 0 ∧
    endByte size conns (conns - 1) = (size : Int) - 1 ∧
    (∀ i, i < conns - 1 →
      endByte size conns i = startByte size conns i + (sliceSize size conns : Int) - 1) ∧
    (∀ i, i + 1 < conns →
      endByte size conns i + 1 = startByte size conns (i + 1)) ∧
    (∀ i j, i < j → j < conns →
      endByte size conns i < startByte size conns j) ∧
    (Finset.range conns).sum
      (fun i => endByte size conns i - startByte size conns i + 1) = (size : Int) := by
  refine ⟨by simp [buildParts], by simp [startByte], by simp [endByte], ?_, ?_, ?_, ?_⟩
  · intro i hi
    have : i ≠ conns - 1 := by omega
    simp [endByte, this]
  · intro i hi
    have hne : i ≠ conns - 1 := by omega
    simp only [endByte, hne, if_false, startByte]
    push_cast
    ring
  · intro i j hij hj
    have hne : i ≠ conns - 1 := by omega
    simp only [endByte, hne, if_false, startByte]
    have h1 : ((i : Int) + 1) * (sliceSize size conns : Int) ≤
        (j : Int) * (sliceSize size conns : Int) := by
      have : (i : Int) + 1 ≤ (j : Int) := by exact_mod_cast hij
      exact mul_le_mul_of_nonneg_right this (by positivity)
    push_cast
    nlinarith [h1]
  · obtain ⟨m, rfl⟩ : ∃ m, conns = m + 1 := ⟨conns - 1, by omega⟩
    rw [Finset.sum_range_succ]
    have hmain : ∀ i ∈ Finset.range m,
        endByte size (m + 1) i - startByte size (m + 1) i + 1
          = (sliceSize size (m + 1) : Int) := by
      intro i hi
      have hne : i ≠ m + 1 - 1 := by
        have := Finset.mem_range.mp hi
        omega
      simp only [endByte, hne, if_false, startByte]
      ring
    rw [Finset.sum_congr rfl hmain, Finset.sum_const, Finset.card_range]
    have hlast : endByte size (m + 1) (m + 1 - 1) = (size : Int) - 1 := by
      simp [endByte]
    have hm1 : m + 1 - 1 = m := by omega
    rw [hm1] at hlast
    rw [hlast]
    simp only [startByte, nsmul_eq_mul]
    push_cast
    ring

/-- Witness for C1 at size 1000, 4 connections. -/
theorem download_partition_correct_witness :
    startByte 1000 4 0 = 0 ∧ endByte 1000 4 (4 - 1) = (1000 : Int) - 1 :=
  ⟨(download_partition_correct 1000 4 (by decide) (by decide)).2.1,
   (download_partition_correct 1000 4 (by decide) (by decide)).2.2.1⟩

/-- Claim C3 (code bug): the source short-circuits on
`range[0] + partSize >= range[1]`, so the one-byte range `[0,0]` (produced
for example by `size = 5`, `connections = 4`, part 0, with no bytes on disk)
is declared finished without any HTTP request, although
`range.start + existing > range.end` is false there; per the claim (and the
spec sentence `existing_bytes >= (end-start+1)`) the worker should issue the
range GET for that byte. -/
theorem connStart_short_circuit_bug :
    startByte 5 4 0 = 0 ∧ endByte 5 4 0 = 0 ∧
    connStart 0 0 0 = ConnAction.finishedEarly ∧
    ¬ ((0 : Int) + 0 > 0) := by
  refine ⟨by decide, by decide, ?_, by decide⟩
  simp [connStart]

/-- Claim C5: a worker that does not short-circuit issues its GET with
header `Range: bytes=<range.start+existing>-<range.end>`. -/
theorem connStart_range_header (startB endB existing : Int)
    (h : startB + existing < endB) :
    connStart startB endB existing
      = ConnAction.request
          ("bytes=" ++ toString (startB + existing) ++ "-" ++ toString endB) := by
  simp only [connStart, rangeHeader]
  rw [if_neg (by omega)]

/-- Witness for C5: the resume scenario of the spec — `size = 10000`,
2 connections (ranges `[0,4999]` and `[5000,9999]` from the partition
function), on-disk part lengths 3000 and 1500 — issues
`bytes=3000-4999` and `bytes=6500-9999`. -/
theorem connStart_range_header_witness :
    startByte 10000 2 0 = 0 ∧ endByte 10000 2 0 = 4999 ∧
    startByte 10000 2 1 = 5000 ∧ endByte 10000 2 1 = 9999 ∧
    connStart 0 4999 3000 = ConnAction.request "bytes=3000-4999" ∧
    connStart 5000 9999 1500 = ConnAction.request "bytes=6500-9999" := by
  refine ⟨by decide, by decide, by decide, by decide, ?_, ?_⟩
  · simpa using connStart_range_header 0 4999 3000 (by decide)
  · simpa using connStart_range_header 5000 9999 1500 (by decide)

end Prometeo

namespace Prometeo

/-! ## Log writer and File.stop (src/utils/writeStream.ts, src/lib/file.ts 268-288)

`Writer.write` increments `pendingWrites`, and the completion callback
decrements it and emits the event named `"write"`.  `File.stop` registers a
listener on the event named `"writed"` that resolves when
`pendingWrites === 0`, and a 1000 ms timer whose callback resolves only
`if (file.logStream.pendingWrites === 0)`. -/

/-- Event name emitted by `Writer` after each completed write
(writeStream.ts line 27: `this.emit("write")`). -/
def writerEventName : String := "write"

/-- Event name the `stop()` drain listener subscribes to
(file.ts line 276: `file.logStream.on("writed", ...)`). -/
def stopDrainEventName : String := "writed"

/-- Guard of the 1000 ms safety-timer callback in `File.stop`
(file.ts lines 284-286): it resolves only when `pendingWrites === 0`. -/
def stopTimerResolves (pendingWrites : Nat) : Bool := pendingWrites == 0

/-- Whether the promise returned by `File.stop` ever resolves, given the
event deliveries `(event name, pendingWrites at delivery)` seen by the log
stream and the `pendingWrites` count when the 1000 ms timer fires: the
drain listener fires on a `"writed"` delivery with zero pending writes, and
the timer resolves per its guard. -/
def stopResolves (pendingAtTimer : Nat) (deliveries : List (String × Nat)) : Bool :=
  deliveries.any (fun d => d.1 == stopDrainEventName && d.2 == 0) ||
    stopTimerResolves pendingAtTimer

/-- Claim C4 (code bug): `stop()` does not resolve within the 1000 ms bound
in every case.  The drain listener waits for `"writed"` while the writer
emits `"write"`, and the safety timer resolves only under the guard
`pendingWrites === 0`; with one log write still pending at the timer, no
resolution path fires even if a `"write"` event with zero pending writes is
delivered. -/
theorem stop_safety_timer_bug :
    stopDrainEventName ≠ writerEventName ∧
    stopTimerResolves 1 = false ∧
    stopResolves 1 [(writerEventName, 0)] = false := by
  refine ⟨by decide, by decide, by decide⟩

/-! ## ETA computation (src/lib/file.ts 400-411 and 325-345)

`calculateTime(bytes, size, downloaded) = ((size - downloaded) / bytes) * 1000`
in JavaScript (IEEE) arithmetic; the progress tick emits
`Math.round(calculateTime(speed, size, totalDownloaded))`.  JavaScript
numbers are modelled as exact rationals extended with `±Infinity` and
`NaN`; the integer inputs that occur here are exact in both models. -/

inductive JSVal where
  | num : ℚ → JSVal
  | posInf : JSVal
  | negInf : JSVal
  | nan : JSVal
  deriving DecidableEq, Repr

/-- JavaScript subtraction on the extended number model. -/
def jsSub : JSVal → JSVal → JSVal
  | JSVal.num a, JSVal.num b => JSVal.num (a - b)
  | JSVal.nan, _ => JSVal.nan
  | _, JSVal.nan => JSVal.nan
  | JSVal.posInf, JSVal.posInf => JSVal.nan
  | JSVal.posInf, _ => JSVal.posInf
  | JSVal.negInf, JSVal.negInf => JSVal.nan
  | JSVal.negInf, _ => JSVal.negInf
  | JSVal.num _, JSVal.posInf => JSVal.negInf
  | JSVal.num _, JSVal.negInf => JSVal.posInf

/-- JavaScript division: `x / 0` is `±Infinity` by the sign of `x`, and
`0 / 0` is `NaN`. -/
def jsDiv : JSVal → JSVal → JSVal
  | JSVal.num a, JSVal.num b =>
      if b = 0 then
        if a = 0 then JSVal.nan
        else if 0 < a then JSVal.posInf else JSVal.negInf
      else JSVal.num (a / b)
  | JSVal.nan, _ => JSVal.nan
  | _, JSVal.nan => JSVal.nan
  | JSVal.posInf, JSVal.num b => if 0 ≤ b then JSVal.posInf else JSVal.negInf
  | JSVal.negInf, JSVal.num b => if 0 ≤ b then JSVal.negInf else JSVal.posInf
  | JSVal.num _, JSVal.posInf => JSVal.num 0
  | JSVal.num _, JSVal.negInf => JSVal.num 0
  | _, _ => JSVal.nan

/-- JavaScript multiplication: `±Infinity * 0` is `NaN`. -/
def jsMul : JSVal → JSVal → JSVal
  | JSVal.num a, JSVal.num b => JSVal.num (a * b)
  | JSVal.nan, _ => JSVal.nan
  | _, JSVal.nan => JSVal.nan
  | JSVal.posInf, JSVal.num b =>
      if b = 0 then JSVal.nan else if 0 < b then JSVal.posInf else JSVal.negInf
  | JSVal.num a, JSVal.posInf =>
      if a = 0 then JSVal.nan else if 0 < a then JSVal.posInf else JSVal.negInf
  | JSVal.negInf, JSVal.num b =>
      if b = 0 then JSVal.nan else if 0 < b then JSVal.negInf else JSVal.posInf
  | JSVal.num a, JSVal.negInf =>
      if a = 0 then JSVal.nan else if 0 < a then JSVal.negInf else JSVal.posInf
  | JSVal.posInf, JSVal.posInf => JSVal.posInf
  | JSVal.negInf, JSVal.negInf => JSVal.posInf
  | _, _ => JSVal.negInf

/-- `Math.round`: for finite `x`, `⌊x + 1/2⌋`; infinities and `NaN` are
fixed points. -/
def jsRound : JSVal → JSVal
  | JSVal.num q => JSVal.num ⌊q + 1 / 2⌋
  | JSVal.posInf => JSVal.posInf
  | JSVal.negInf => JSVal.negInf
  | JSVal.nan => JSVal.nan

/-- `File.calculateTime` (file.ts 400-411): `(size - downloaded) / bytes * 1000`. -/
def calculateTime (bytes size downloaded : JSVal) : JSVal :=
  jsMul (jsDiv (jsSub size downloaded) bytes) (JSVal.num 1000)

/-- The ETA value emitted on the 500 ms progress tick (file.ts 337-344):
`Math.round(calculateTime(speed, size, totalDownloaded))`. -/
def emittedEta (speed size totalDownloaded : JSVal) : JSVal :=
  jsRound (calculateTime speed size totalDownloaded)

/-- Claim C7, counterexample: at `size = 100`, `totalDownloaded = 200`,
`aggregate_speed = 1000`, the emitted ETA is `-100`, not `0`, although
`total_downloaded ≥ size`. -/
theorem eta_zero_convention_cex :
    emittedEta (JSVal.num 1000) (JSVal.num 100) (JSVal.num 200)
      = JSVal.num (-100) ∧
    (100 : ℚ) ≤ 200 ∧ JSVal.num (-100) ≠ JSVal.num 0 := by
  refine ⟨?_, by norm_num, by decide⟩
  simp only [emittedEta, calculateTime, jsSub, jsDiv, jsMul, jsRound]
  norm_num

/-- Claim C7, amended: the emitted ETA is
`round(((size - total) / speed) * 1000)` under JavaScript arithmetic; it is
`0` when `total_downloaded` equals `size` exactly (and the speed is
positive), `+∞` when the aggregate speed is `0` and `total < size`, but
`NaN` when the speed is `0` and `total = size`, `-∞` when the speed is `0`
and `total > size`, and a nonpositive (generally negative) number rather
than `0` when `total > size` with positive speed. -/
theorem eta_emitted_value (speed size total : ℚ) :
    (speed ≠ 0 →
      emittedEta (JSVal.num speed) (JSVal.num size) (JSVal.num total)
        = JSVal.num ⌊(size - total) / speed * 1000 + 1 / 2⌋) ∧
    (0 < speed → total = size →
      emittedEta (JSVal.num speed) (JSVal.num size) (JSVal.num total)
        = JSVal.num 0) ∧
    (speed = 0 → total < size →
      emittedEta (JSVal.num speed) (JSVal.num size) (JSVal.num total)
        = JSVal.posInf) ∧
    (speed = 0 → total = size →
      emittedEta (JSVal.num speed) (JSVal.num size) (JSVal.num total)
        = JSVal.nan) ∧
    (speed = 0 → size < total →
      emittedEta (JSVal.num speed) (JSVal.num size) (JSVal.num total)
        = JSVal.negInf) ∧
    (0 < speed → size < total →
      emittedEta (JSVal.num speed) (JSVal.num size) (JSVal.num total)
        = JSVal.num ⌊(size - total) / speed * 1000 + 1 / 2⌋ ∧
      ⌊(size - total) / speed * 1000 + 1 / 2⌋ ≤ 0) := by
  refine ⟨?_, ?_, ?_, ?_, ?_, ?_⟩
  · intro hs
    simp [emittedEta, calculateTime, jsSub, jsDiv, jsMul, jsRound, hs]
  · intro hs ht
    subst ht
    simp only [emittedEta, calculateTime, jsSub, jsDiv, jsMul, jsRound,
      sub_self, ne_of_gt hs, if_neg (ne_of_gt hs), zero_div, zero_mul]
    norm_num
  · intro hs ht
    have h1 : (0 : ℚ) < size - total := by linarith
    simp [emittedEta, calculateTime, jsSub, jsDiv, jsMul, jsRound, hs,
      ne_of_gt h1, h1]
  · intro hs ht
    subst ht
    simp [emittedEta, calculateTime, jsSub, jsDiv, jsMul, jsRound, hs]
  · intro hs ht
    have h1 : size - total < 0 := by linarith
    simp [emittedEta, calculateTime, jsSub, jsDiv, jsMul, jsRound, hs,
      ne_of_lt h1, not_lt.mpr (le_of_lt h1)]
  · intro hs ht
    refine ⟨?_, ?_⟩
    · simp [emittedEta, calculateTime, jsSub, jsDiv, jsMul, jsRound, ne_of_gt hs]
    · have h1 : size - total ≤ -1 * 0 := by linarith
      have h2 : (size - total) / speed * 1000 ≤ 0 := by
        apply mul_nonpos_of_nonpos_of_nonneg
        · exact div_nonpos_of_nonpos_of_nonneg (by linarith) (le_of_lt hs)
        · norm_num
      have h3 : (size - total) / speed * 1000 + 1 / 2 ≤ 1 / 2 := by linarith
      have h4 : (⌊(size - total) / speed * 1000 + 1 / 2⌋ : ℤ) ≤ ⌊(1 : ℚ) / 2⌋ :=
        Int.floor_le_floor h3
      have h5 : (⌊(1 : ℚ) / 2⌋ : ℤ) = 0 := by norm_num
      omega

/-- Witness for the amended C7 at `speed = 1000`, `size = 100`, `total = 200`. -/
theorem eta_emitted_value_witness :
    emittedEta (JSVal.num 1000) (JSVal.num 100) (JSVal.num 200)
      = JSVal.num ⌊((100 : ℚ) - 200) / 1000 * 1000 + 1 / 2⌋ :=
  (eta_emitted_value 1000 100 200).1 (by norm_num)

end Prometeo

namespace Prometeo

/-! ## Speed propagation (src/lib/manager.ts 403-419, src/lib/file.ts 239-253,
connection module speed handler)

`Manager.setSpeed(speed)` validates `speed > 0`, stores
`speed * 125000` and calls `download.setSpeed(speed * 125000)` on every
tracked download.  `File.setSpeed(speed)` stores the total and emits
`speed / this.connections.length` — dividing by the length of the whole
connections array (finished-but-not-destroyed connections included;
destroyed connections have been removed by the `destroy` handler).  Each
connection's `speed` handler updates its `speedLimit` and throttle rate to
the delivered value only when it is not finished. -/

structure ConnState where
  finished : Bool
  speedLimit : ℚ
  deriving DecidableEq, Repr

/-- Effect of one delivery of the File `speed` event with value `v` on the
tracked connections (the handler guards on `!connection.finished`). -/
def applySpeedEvent (conns : List ConnState) (v : ℚ) : List ConnState :=
  conns.map (fun c => if c.finished then c else { c with speedLimit := v })

/-- `File.setSpeed`: emits `total / connections.length` to the connections. -/
def fileSetSpeed (conns : List ConnState) (total : ℚ) : List ConnState :=
  applySpeedEvent conns (total / (conns.length : ℚ))

/-- `Manager.setSpeed`: validation, conversion to bytes/second, propagation. -/
def managerSetSpeed (mbps : ℚ) (downloads : List (List ConnState)) :
    Except Unit (ℚ × List (List ConnState)) :=
  if mbps ≤ 0 then Except.error ()
  else Except.ok (mbps * 125000, downloads.map (fun cs => fileSetSpeed cs (mbps * 125000)))

/-- Claim C8, counterexample: with two tracked connections of which one is
finished (but not destroyed), a delivery of total `1000000` sets the
unfinished connection's rate to `1000000 / 2 = 500000`, not
`1000000 / 1` as the claim's `new total / active count` requires. -/
theorem setSpeed_divisor_cex :
    (fileSetSpeed [⟨true, 100⟩, ⟨false, 100⟩] 1000000).get? 1
      = some ⟨false, 500000⟩ ∧
    ([(⟨true, 100⟩ : ConnState), ⟨false, 100⟩].filter (fun c => !c.finished)).length = 1 ∧
    (500000 : ℚ) ≠ 1000000 / 1 := by
  refine ⟨?_, by decide, by norm_num⟩
  simp only [fileSetSpeed, applySpeedEvent]
  norm_num

/-- Claim C8, amended: `Manager.setSpeed(mbps)` with `mbps > 0` sets the
aggregate ceiling to `mbps * 125000` bytes/second and propagates it to
every tracked download; each delivery of the resulting `speed` event sets
every not-yet-finished connection's rate to the new total divided by the
number of connections still tracked in the array (finished ones included,
destroyed ones excluded), leaving finished connections unchanged. -/
theorem setSpeed_propagation (mbps : ℚ) (h : 0 < mbps)
    (downloads : List (List ConnState)) :
    managerSetSpeed mbps downloads
      = Except.ok (mbps * 125000,
          downloads.map (fun cs => fileSetSpeed cs (mbps * 125000))) ∧
    (∀ cs : List ConnState, ∀ v : ℚ, ∀ i : Nat,
      (applySpeedEvent cs v).get? i
        = (cs.get? i).map (fun c => if c.finished then c else { c with speedLimit := v })) := by
  constructor
  · simp [managerSetSpeed, not_le.mpr h]
  · intro cs v i
    simp [applySpeedEvent, List.get?_map]

/-- Witness for the amended C8 at `mbps = 8` with one download holding one
finished and one active connection. -/
theorem setSpeed_propagation_witness :
    managerSetSpeed 8 [[⟨true, 100⟩, ⟨false, 100⟩]]
      = Except.ok (8 * 125000,
          [fileSetSpeed [⟨true, 100⟩, ⟨false, 100⟩] (8 * 125000)]) :=
  (setSpeed_propagation 8 (by norm_num) [[⟨true, 100⟩, ⟨false, 100⟩]]).1

end Prometeo

namespace Prometeo

/-! ## URL metadata prober (URL utility module, getData, lines 69-96)

`let size = Number(res.headers.get("content-length"));`
`size = isNaN(size) ? 0 : Number(size);`
A missing header gives `Number(null) = 0`; an unparseable value gives `NaN`,
coerced to `0`.  The numeric parse is modelled for the values a
`Content-Length` can carry: a (nonempty) decimal digit string parses to its
value, anything else is the `NaN` path; `none` stands for a missing header. -/

def digitsToNat (cs : List Char) : Nat :=
  cs.foldl (fun a c => 10 * a + (c.toNat - 48)) 0

def allDigits (s : String) : Bool :=
  s.length > 0 && s.toList.all Char.isDigit

/-- `Number(s)` restricted to the shapes relevant for `Content-Length`:
`none` is the `NaN` outcome. -/
def jsNumberOfDigits (s : String) : Option Int :=
  if allDigits s then some (digitsToNat s.toList) else none

/-- The `size` field produced by `getData` from the `Content-Length` header. -/
def contentLengthSize (header : Option String) : Int :=
  match header with
  | none => 0
  | some s =>
      match jsNumberOfDigits s with
      | some n => n
      | none => 0

/-- `isValidFileName` (URL utility module, lines 23-27): the regex
`^[a-zA-Z0-9._-]+$`. -/
def isValidFileName (s : String) : Bool :=
  s.length > 0 && s.toList.all (fun c => c.isAlphanum || c = '.' || c = '-' || c = '_')

/-- Characters after the last `.` of a name, if any. -/
def extAfterDot : List Char → Option (List Char)
  | [] => none
  | c :: cs =>
      match extAfterDot cs with
      | some e => some e
      | none => if c = '.' then some cs else none

/-- Model of `path.extname` as used on user-supplied filenames: the dotted
suffix after the last `.`, `""` when there is no dot.  (Node's special case
for names that start with their only dot is not modelled; no claim depends
on it.) -/
def extnameModel (s : String) : String :=
  match extAfterDot s.toList with
  | some e => String.mk ('.' :: e)
  | none => ""

/-! ## Manager.download and the File constructor
(src/lib/manager.ts 264-382, src/lib/file.ts 53-162)

The filesystem, prober and randomness the code consults are passed in as an
explicit environment; the control flow, check order and error kinds are
those of the source. -/

/-- The error taxonomy of `src/utils/errors` (part of the unnamed module). -/
inductive ErrName where
  | invalidArgument : ErrName
  | badMetadata : ErrName
  | badURL : ErrName
  | internal : ErrName
  deriving DecidableEq, Repr

/-- Result of `URLUtils.getData` (URL utility module, lines 69-96). -/
structure URLData where
  fileType : String
  size : Int
  acceptRange : Bool
  fileName : String
  contentType : String
  deriving DecidableEq, Repr

/-- The configuration record handed to the `File` constructor
(`FileOptions`, file.ts 19-30, fresh download path). -/
structure FileCfg where
  url : String
  path : String
  name : String
  size : Int
  parts : List (Int × Int)
  destination : String
  speed : ℚ
  contentType : String
  finished : Bool
  deriving DecidableEq, Repr

/-- The `File` constructor's validations (file.ts 57-122), in source order:
non-empty `url`, `path`, `destination`, `name`, `contentType` (each via
`.trim() === ""`), positive `size`, positive `speed`, then creation of the
work directory (`workDirOk` stands for "the directory exists or `mkdirp`
succeeded"). -/
def mkFile (workDirOk : Bool) (d : FileCfg) : Except ErrName FileCfg :=
  if d.url.trim = "" then Except.error ErrName.invalidArgument
  else if d.path.trim = "" then Except.error ErrName.invalidArgument
  else if d.destination.trim = "" then Except.error ErrName.invalidArgument
  else if d.name.trim = "" then Except.error ErrName.invalidArgument
  else if d.contentType.trim = "" then Except.error ErrName.invalidArgument
  else if d.size ≤ 0 then Except.error ErrName.invalidArgument
  else if d.speed ≤ 0 then Except.error ErrName.invalidArgument
  else if workDirOk = false then Except.error ErrName.internal
  else Except.ok d

/-- The external observations `Manager.download` makes, as an environment:
`urlValid` is `URLUtils.validate(url)`, `probe` the outcome of
`URLUtils.getData` (`none` for any rejection, including a non-2xx HEAD),
`pathExists`/`mkdirOk` the destination-parent checks, `destExistsAsFile`
whether the resolved destination already exists as a file, `randomName` the
random 32-hex base, and `workDirOk` the work-directory creation inside the
`File` constructor. -/
structure DownloadEnv where
  urlValid : Bool
  probe : Option URLData
  pathExists : Bool
  mkdirOk : Bool
  destExistsAsFile : Bool
  randomName : String
  workDirOk : Bool
  deriving Repr

structure MgrConfig where
  connections : Nat
  tempDir : String
  speedLimit : ℚ
  deriving Repr

/-- `Manager.download` (manager.ts 264-382): argument validation, URL
validation, probe, range-support requirement, destination-parent creation,
filename resolution, destination-exists check, then the `File`
constructor.  The filename guard at line 273 is vacuous for string-typed
arguments — `options.filename && (...)` is falsy for `""`, so an empty
filename is treated as absent and never rejected — hence it contributes no
branch here.  (The extension-stripping in the work-directory name is not
reproduced; no claim inspects that name.) -/
def downloadM (cfg : MgrConfig) (url path : String) (filename : Option String)
    (env : DownloadEnv) : Except ErrName FileCfg :=
  if url.length = 0 then Except.error ErrName.invalidArgument
  else if path.length = 0 then Except.error ErrName.invalidArgument
  else if env.urlValid = false then Except.error ErrName.badURL
  else
    match env.probe with
    | none => Except.error ErrName.badURL
    | some d =>
      if d.acceptRange = false then Except.error ErrName.badURL
      else if env.pathExists = false ∧ env.mkdirOk = false then
        Except.error ErrName.internal
      else
        let fileType := match filename with
          | some f => if f.length = 0 then d.fileType else extnameModel f
          | none => d.fileType
        let finalName0 := match filename with
          | some f => if f.length = 0 then d.fileName else f
          | none => d.fileName
        let finalName := if isValidFileName finalName0 = true then finalName0
          else env.randomName ++ fileType
        if env.destExistsAsFile = true then Except.error ErrName.invalidArgument
        else mkFile env.workDirOk
          { url := url
            path := cfg.tempDir ++ "/" ++ finalName
            name := finalName
            size := d.size
            parts := buildParts d.size.toNat cfg.connections
            destination := path ++ "/" ++ finalName
            speed := cfg.speedLimit
            contentType := d.contentType
            finished := false }

/-- The `File` constructor never raises `BadURLError`. -/
theorem mkFile_ne_badURL (w : Bool) (d : FileCfg) :
    mkFile w d ≠ Except.error ErrName.badURL := by
  unfold mkFile
  repeat' split
  all_goals simp

/-- With a nonpositive `size`, the `File` constructor always raises
`InvalidArgumentError` (all validations preceding the size check also raise
`InvalidArgumentError`, and the size check precedes the work-directory
creation). -/
theorem mkFile_nonpos_size (w : Bool) (d : FileCfg) (h : d.size ≤ 0) :
    mkFile w d = Except.error ErrName.invalidArgument := by
  unfold mkFile
  repeat' split
  all_goals simp_all

/-- An environment whose URL is syntactically invalid
(`new URL("")` throws, so `URLUtils.validate ""` is `false`). -/
def cexEnv : DownloadEnv :=
  { urlValid := false, probe := none, pathExists := true, mkdirOk := true,
    destExistsAsFile := false, randomName := "0123456789abcdef0123456789abcdef",
    workDirOk := true }

/-- Claim C6, counterexample: for the empty URL — which fails syntactic
validation — `Manager.download` rejects with `InvalidArgumentError`
(the `url.length === 0` argument check fires first), not `BadURLError`,
refuting the claimed "if and only if". -/
theorem download_badURL_iff_cex :
    downloadM ⟨4, "/tmp/Prometeo", 1250000⟩ "" "/dest" none cexEnv
      = Except.error ErrName.invalidArgument ∧
    cexEnv.urlValid = false ∧
    (Except.error ErrName.invalidArgument : Except ErrName FileCfg)
      ≠ Except.error ErrName.badURL := by
  refine ⟨rfl, rfl, by simp⟩

/-- Claim C6, amended: for a nonempty URL and path, `Manager.download`
rejects with `BadURLError` iff the URL fails syntactic validation, the
HEAD probe fails (including non-2xx), or the probed `Accept-Ranges` is not
`bytes`; and when the probe succeeds with range support, it rejects with
`InvalidArgumentError` if the resolved destination path already exists as
a file.  (`hcoh` records the filesystem fact that a file inside the
destination directory can only exist if that directory does.) -/
theorem download_badURL_iff (cfg : MgrConfig) (url path : String)
    (filename : Option String) (env : DownloadEnv)
    (hu : url.length ≠ 0) (hp : path.length ≠ 0)
    (hcoh : env.destExistsAsFile = true → env.pathExists = true) :
    (downloadM cfg url path filename env = Except.error ErrName.badURL
      ↔ (env.urlValid = false ∨ env.probe = none ∨
          ∃ d, env.probe = some d ∧ d.acceptRange = false)) ∧
    (∀ d, env.urlValid = true → env.probe = some d → d.acceptRange = true →
      env.destExistsAsFile = true →
      downloadM cfg url path filename env = Except.error ErrName.invalidArgument) := by
  obtain ⟨uv, pr, pe, mo, de, rn, wo⟩ := env
  simp only [downloadM, if_neg hu, if_neg hp]
  constructor
  · cases uv with
    | false => simp
    | true =>
      simp only [Bool.true_eq_false, if_false]
      cases pr with
      | none => simp
      | some d =>
        cases har : d.acceptRange with
        | false => simp [har]
        | true =>
          simp only [har, Bool.true_eq_false, if_false]
          constructor
          · intro h
            exfalso
            by_cases hmk : pe = false ∧ mo = false
            · rw [if_pos hmk] at h
              exact absurd h (by simp)
            · rw [if_neg hmk] at h
              by_cases hde : de = true
              · rw [if_pos hde] at h
                exact absurd h (by simp)
              · rw [if_neg hde] at h
                exact mkFile_ne_badURL _ _ h
          · intro h
            exfalso
            rcases h with h | h | ⟨d', hd', hacc⟩
            · exact absurd h (by simp)
            · exact absurd h (by simp)
            · rw [Option.some_inj] at hd'
              subst hd'
              rw [har] at hacc
              exact absurd hacc (by simp)
  · intro d huv hd hacc hde
    subst hd
    subst huv
    simp only at hcoh
    have hpe : pe = true := hcoh hde
    simp [hacc, hde, hpe]

/-- Witness for the amended C6: a probe refusing range requests
(`Accept-Ranges: none`) makes `download` reject with `BadURLError`. -/
theorem download_badURL_iff_witness :
    downloadM ⟨4, "/tmp/Prometeo", 1250000⟩ "http://x/f.bin" "/dest" none
      { urlValid := true,
        probe := some ⟨".bin", 1000, false, "f.bin", "application/octet-stream"⟩,
        pathExists := true, mkdirOk := true, destExistsAsFile := false,
        randomName := "0123456789abcdef0123456789abcdef", workDirOk := true }
      = Except.error ErrName.badURL :=
  (download_badURL_iff ⟨4, "/tmp/Prometeo", 1250000⟩ "http://x/f.bin" "/dest" none
    { urlValid := true,
      probe := some ⟨".bin", 1000, false, "f.bin", "application/octet-stream"⟩,
      pathExists := true, mkdirOk := true, destExistsAsFile := false,
      randomName := "0123456789abcdef0123456789abcdef", workDirOk := true }
    (by decide) (by decide) (by intro h; exact rfl)).1.mpr
    (Or.inr (Or.inr ⟨_, rfl, rfl⟩))

/-- Claim C9: a HEAD response without a parseable `Content-Length` yields
probe size `0`, and `Manager.download` then rejects with
`InvalidArgumentError` from the `File` constructor's positive-size check —
before any download handle (and hence any Worker) exists. -/
theorem zero_size_rejected (cfg : MgrConfig) (url path : String)
    (filename : Option String) (env : DownloadEnv) (d : URLData)
    (hu : url.length ≠ 0) (hp : path.length ≠ 0)
    (huv : env.urlValid = true)
    (hprobe : env.probe = some d) (hacc : d.acceptRange = true)
    (hsize : d.size = 0)
    (hmk : ¬(env.pathExists = false ∧ env.mkdirOk = false))
    (hde : env.destExistsAsFile = false) :
    (∀ h : Option String,
      (h = none ∨ ∃ s, h = some s ∧ jsNumberOfDigits s = none) →
      contentLengthSize h = 0) ∧
    downloadM cfg url path filename env = Except.error ErrName.invalidArgument := by
  constructor
  · intro h hh
    rcases hh with rfl | ⟨s, rfl, hs⟩
    · rfl
    · simp [contentLengthSize, hs]
  · simp only [downloadM, if_neg hu, if_neg hp, huv, hprobe, hacc,
      if_neg hmk, hde]
    exact mkFile_nonpos_size _ _ (le_of_eq hsize)

/-- An environment whose HEAD probe succeeded with range support but
carried no parseable `Content-Length`, hence size `0`. -/
def zeroSizeEnv : DownloadEnv :=
  { urlValid := true,
    probe := some ⟨".bin", contentLengthSize none, true, "f.bin",
      "application/octet-stream"⟩,
    pathExists := true, mkdirOk := true, destExistsAsFile := false,
    randomName := "0123456789abcdef0123456789abcdef", workDirOk := true }

/-- Witness for C9: a missing `Content-Length` header. -/
theorem zero_size_rejected_witness :
    contentLengthSize none = 0 ∧
    downloadM ⟨4, "/tmp/Prometeo", 1250000⟩ "http://x/f.bin" "/dest" none
      zeroSizeEnv = Except.error ErrName.invalidArgument :=
  ⟨(zero_size_rejected ⟨4, "/tmp/Prometeo", 1250000⟩ "http://x/f.bin" "/dest"
      none zeroSizeEnv
      ⟨".bin", contentLengthSize none, true, "f.bin", "application/octet-stream"⟩
      (by decide) (by decide) rfl rfl rfl rfl (by decide) rfl).1
      none (Or.inl rfl),
   (zero_size_rejected ⟨4, "/tmp/Prometeo", 1250000⟩ "http://x/f.bin" "/dest"
      none zeroSizeEnv
      ⟨".bin", contentLengthSize none, true, "f.bin", "application/octet-stream"⟩
      (by decide) (by decide) rfl rfl rfl rfl (by decide) rfl).2⟩

end Prometeo

namespace Prometeo

/-! ## The File handle state over its lifetime (src/lib/file.ts)

`File.progress` is a `readonly` field assigned `0` in the constructor
(line 130) and never reassigned.  The state visible through the handle and
the operations acting on it are modelled as explicit state transformers;
each transformer updates exactly the fields the corresponding source
operation writes. -/

structure FileState where
  progress : ℚ
  speed : ℚ
  stoped : Bool
  connections : List ConnState
  finishedCfg : Bool
  deriving Repr

/-- The field assignments of the `File` constructor (file.ts 125-136). -/
def mkFileState (speed : ℚ) : FileState :=
  { progress := 0, speed := speed, stoped := false, connections := [],
    finishedCfg := false }

/-- The `finish` handler marks connection `i` finished. -/
def setConnFinished (conns : List ConnState) (i : Nat) : List ConnState :=
  conns.mapIdx (fun j c => if j = i then { c with finished := true } else c)

/-- The unfinished connections, as filtered by the observer and sampler. -/
def activeConns (conns : List ConnState) : List ConnState :=
  conns.filter (fun c => !c.finished)

/-- The operations acting on a `File` over its lifetime. -/
inductive FileOp where
  | startOp : List ConnState → FileOp
  | stopOp : FileOp
  | setSpeedOp : ℚ → FileOp
  | observerTick : FileOp
  | connFinish : Nat → FileOp
  | connDestroy : Nat → FileOp
  | composeOp : FileOp
  | cleanupFailOp : FileOp
  | cleanupOkOp : FileOp

/-- Effect of each operation, from the source: `start` pushes the spawned
connections (file.ts 383); `stop` sets `stoped` (line 272); `setSpeed`
stores the total and delivers `total / connections.length` (lines 249-252);
the observer delivers `speed / active.length` when the active count changes
(line 458); the `finish`/`destroy` connection events mark or remove a
connection (lines 376-381); `composeFile` concatenates parts; a failed
`cleanup` rewrites the manifest with `finished = true` (lines 483-489). -/
def applyFileOp (st : FileState) : FileOp → FileState
  | FileOp.startOp conns => { st with connections := st.connections ++ conns }
  | FileOp.stopOp => { st with stoped := true }
  | FileOp.setSpeedOp s =>
      { st with speed := s, connections := fileSetSpeed st.connections s }
  | FileOp.observerTick =>
      let v := st.speed / ((activeConns st.connections).length : ℚ)
      { st with connections := applySpeedEvent st.connections v }
  | FileOp.connFinish i => { st with connections := setConnFinished st.connections i }
  | FileOp.connDestroy i => { st with connections := st.connections.eraseIdx i }
  | FileOp.composeOp => st
  | FileOp.cleanupFailOp => { st with finishedCfg := true }
  | FileOp.cleanupOkOp => st

/-- Running a sequence of lifetime operations on a fresh handle. -/
def runFileOps (speed : ℚ) (ops : List FileOp) : FileState :=
  ops.foldl applyFileOp (mkFileState speed)

/-- No operation writes `progress`. -/
theorem applyFileOp_progress (st : FileState) (op : FileOp) :
    (applyFileOp st op).progress = st.progress := by
  cases op <;> rfl

theorem foldl_applyFileOp_progress (ops : List FileOp) (st : FileState) :
    (ops.foldl applyFileOp st).progress = st.progress := by
  induction ops generalizing st with
  | nil => rfl
  | cons op ops ih => rw [List.foldl_cons, ih, applyFileOp_progress]

/-- Claim C10: `File.progress` is `0` at construction and stays `0` under
every sequence of lifetime operations (start, stop, setSpeed, observer
ticks, connection finish/destroy events, compose, cleanup); every
observation of `file.progress` yields `0`. -/
theorem file_progress_always_zero (speed : ℚ) (ops : List FileOp) :
    (mkFileState speed).progress = 0 ∧ (runFileOps speed ops).progress = 0 := by
  refine ⟨rfl, ?_⟩
  rw [runFileOps, foldl_applyFileOp_progress]
  rfl

end Prometeo

namespace Prometeo

/-! ## Manifest codec (src/lib/file.ts)

Encoding (constructor, lines 148-151):
`Buffer.from(JSON.stringify(download)).reverse().toString("hex")` — UTF-8
bytes of the JSON text, byte order reversed, lowercase hex.
Decoding (`File.validate`, lines 556-577):
`Buffer.from(text, "hex").reverse().toString("utf-8")`, then `JSON.parse`.

The JSON text of a fresh plan is `JSON.stringify` of the object literal
built in `manager.ts` (keys in insertion order `url`, `path`, `name`,
`size`, `parts`, `destination`, `speed`, `contentType`, `finished`; the
`parts` object has the ascending integer keys `"0"` … `"N-1"`, each mapped
to `[part_path, [start, end]]`).  `renderPlan` below reproduces that text;
`parsePlan` is `JSON.parse` restricted to that schema.  Bytes are `Nat`
values `< 256`; the UTF-8 layer is modelled on the ASCII plane, which is
where every valid plan lives (see `planValid`). -/

/-- Lowercase hex digit, as produced by `Buffer.toString("hex")`. -/
def hexDigitChar (n : Nat) : Char :=
  if n < 10 then Char.ofNat (48 + n) else Char.ofNat (87 + n)

def byteHex (b : Nat) : List Char := [hexDigitChar (b / 16), hexDigitChar (b % 16)]

/-- `Buffer.from(bytes).reverse().toString("hex")`. -/
def encodeHex (bs : List Nat) : List Char := bs.reverse.flatMap byteHex

/-- Value of one hex digit (`Buffer.from(·, "hex")` accepts both cases). -/
def hexDigitVal (c : Char) : Option Nat :=
  if '0' ≤ c ∧ c ≤ '9' then some (c.toNat - 48)
  else if 'a' ≤ c ∧ c ≤ 'f' then some (c.toNat - 87)
  else if 'A' ≤ c ∧ c ≤ 'F' then some (c.toNat - 55)
  else none

def hexPairs : List Char → Option (List Nat)
  | [] => some []
  | c1 :: c2 :: rest =>
      match hexDigitVal c1, hexDigitVal c2, hexPairs rest with
      | some a, some b, some t => some ((16 * a + b) :: t)
      | _, _, _ => none
  | [_] => none

/-- `Buffer.from(text, "hex").reverse()`: the manifest bytes restored to
their original order. -/
def decodeHexReversed (cs : List Char) : Option (List Nat) :=
  (hexPairs cs).map List.reverse

/-- UTF-8 encoding on the ASCII plane: one byte per character. -/
def utf8Bytes (cs : List Char) : List Nat := cs.map Char.toNat

/-- `Buffer.toString("utf-8")` on the ASCII plane. -/
def bytesToChars (bs : List Nat) : Option (List Char) :=
  if bs.all (fun b => b < 128) then some (bs.map Char.ofNat) else none

/-! ### The JSON text of a Plan -/

/-- One entry of the `parts` object: `[part_path, [start, end]]`. -/
structure PartEntry where
  path : List Char
  startB : Int
  endB : Int
  deriving DecidableEq, Repr

/-- The `FileOptions` object serialized into `prometeo.config` for a fresh
download, with its `JSON.stringify` key order. -/
structure Plan where
  url : List Char
  path : List Char
  name : List Char
  size : Nat
  parts : List PartEntry
  destination : List Char
  speed : Nat
  contentType : List Char
  finished : Bool
  deriving DecidableEq, Repr

def lbChar : Char := Char.ofNat 123
def rbChar : Char := Char.ofNat 125

def digitChar10 (d : Nat) : Char := Char.ofNat (48 + d)

/-- Decimal digits of `n`, most significant first — `JSON.stringify` of a
nonnegative integer. -/
def natChars (n : Nat) : List Char :=
  if n = 0 then ['0'] else (Nat.digits 10 n).reverse.map digitChar10

/-- `JSON.stringify` of an integer. -/
def intChars (i : Int) : List Char :=
  if i < 0 then '-' :: natChars i.natAbs else natChars i.toNat

/-- A JSON string literal for content that needs no escaping. -/
def quoteJ (s : List Char) : List Char := '"' :: s ++ ['"']

def keyUrl : List Char := ['"', 'u', 'r', 'l', '"', ':']
def keyPathJ : List Char := [',', '"', 'p', 'a', 't', 'h', '"', ':']
def keyNameJ : List Char := [',', '"', 'n', 'a', 'm', 'e', '"', ':']
def keySizeJ : List Char := [',', '"', 's', 'i', 'z', 'e', '"', ':']
def keyPartsJ : List Char := [',', '"', 'p', 'a', 'r', 't', 's', '"', ':']
def keyDestinationJ : List Char :=
  [',', '"', 'd', 'e', 's', 't', 'i', 'n', 'a', 't', 'i', 'o', 'n', '"', ':']
def keySpeedJ : List Char := [',', '"', 's', 'p', 'e', 'e', 'd', '"', ':']
def keyContentTypeJ : List Char :=
  [',', '"', 'c', 'o', 'n', 't', 'e', 'n', 't', 'T', 'y', 'p', 'e', '"', ':']
def keyFinishedJ : List Char :=
  [',', '"', 'f', 'i', 'n', 'i', 's', 'h', 'e', 'd', '"', ':']
def litTrue : List Char := ['t', 'r', 'u', 'e']
def litFalse : List Char := ['f', 'a', 'l', 's', 'e']

/-- `"<i>":["<path>",[<start>,<end>]]`. -/
def renderEntry (i : Nat) (e : PartEntry) : List Char :=
  quoteJ (natChars i) ++ ':' :: '[' :: quoteJ e.path ++
    ',' :: '[' :: intChars e.startB ++ ',' :: intChars e.endB ++ [']', ']']

def renderEntries (idx : Nat) : List PartEntry → List Char
  | [] => []
  | [e] => renderEntry idx e
  | e :: rest => renderEntry idx e ++ ',' :: renderEntries (idx + 1) rest

/-- The `parts` object with consecutive integer keys starting at `"0"`. -/
def renderParts (ps : List PartEntry) : List Char :=
  lbChar :: renderEntries 0 ps ++ [rbChar]

/-- `JSON.stringify` of a fresh plan's `FileOptions` object. -/
def renderPlan (p : Plan) : List Char :=
  lbChar :: (keyUrl ++ quoteJ p.url ++ keyPathJ ++ quoteJ p.path ++
    keyNameJ ++ quoteJ p.name ++ keySizeJ ++ natChars p.size ++
    keyPartsJ ++ renderParts p.parts ++ keyDestinationJ ++
    quoteJ p.destination ++ keySpeedJ ++ natChars p.speed ++
    keyContentTypeJ ++ quoteJ p.contentType ++ keyFinishedJ ++
    (if p.finished then litTrue else litFalse) ++ [rbChar])

/-! ### `JSON.parse` restricted to the Plan schema -/

/-- Consume an expected literal prefix. -/
def dropLit : List Char → List Char → Option (List Char)
  | [], input => some input
  | _ :: _, [] => none
  | c :: cs, d :: ds => if c = d then dropLit cs ds else none

def readStrBody : List Char → Option (List Char × List Char)
  | [] => none
  | c :: cs =>
      if c = '"' then some ([], cs)
      else
        match readStrBody cs with
        | some (s, r) => some (c :: s, r)
        | none => none

/-- A JSON string literal: `"` then content up to the closing `"`. -/
def readStringLit : List Char → Option (List Char × List Char)
  | [] => none
  | c :: cs => if c = '"' then readStrBody cs else none

def readDigits : List Char → (List Char × List Char)
  | [] => ([], [])
  | c :: cs =>
      if c.isDigit then
        match readDigits cs with
        | (ds, r) => (c :: ds, r)
      else ([], c :: cs)

def readNat (input : List Char) : Option (Nat × List Char) :=
  match readDigits input with
  | (ds, r) => if ds = [] then none else some (digitsToNat ds, r)

def readInt (input : List Char) : Option (Int × List Char) :=
  match input with
  | [] => none
  | c :: cs =>
      if c = '-' then
        match readNat cs with
        | some (n, r) => some (-(n : Int), r)
        | none => none
      else
        match readNat (c :: cs) with
        | some (n, r) => some ((n : Int), r)
        | none => none

/-- One `"<idx>":["<path>",[<start>,<end>]]` entry, with the expected key. -/
def readEntry (idx : Nat) (input : List Char) : Option (PartEntry × List Char) :=
  match readStringLit input with
  | none => none
  | some (key, r1) =>
    if key = natChars idx then
      match r1 with
      | ':' :: '[' :: r2 =>
        match readStringLit r2 with
        | none => none
        | some (p, r3) =>
          match r3 with
          | ',' :: '[' :: r4 =>
            match readInt r4 with
            | none => none
            | some (s, r5) =>
              match r5 with
              | ',' :: r6 =>
                match readInt r6 with
                | none => none
                | some (e2, r7) =>
                  match r7 with
                  | ']' :: ']' :: r8 => some (⟨p, s, e2⟩, r8)
                  | _ => none
              | _ => none
          | _ => none
      | _ => none
    else none

/-- Comma-separated entries with consecutive keys; the fuel bounds the
recursion by the input length. -/
def readEntries (fuel idx : Nat) (input : List Char) :
    Option (List PartEntry × List Char) :=
  match fuel with
  | 0 => none
  | fuel' + 1 =>
    match readEntry idx input with
    | none => none
    | some (e, rest) =>
      match rest with
      | [] => some ([e], [])
      | c :: rest2 =>
        if c = ',' then
          match readEntries fuel' (idx + 1) rest2 with
          | some (es, r) => some (e :: es, r)
          | none => none
        else some ([e], c :: rest2)

/-- The `parts` object. -/
def readParts (input : List Char) : Option (List PartEntry × List Char) :=
  match input with
  | [] => none
  | c :: rest =>
    if c = lbChar then
      match rest with
      | [] => none
      | d :: rest2 =>
        if d = rbChar then some ([], rest2)
        else
          match readEntries rest.length 0 rest with
          | some (es, r) =>
            match r with
            | e2 :: r2 => if e2 = rbChar then some (es, r2) else none
            | [] => none
          | none => none
    else none

def readBool (input : List Char) : Option (Bool × List Char) :=
  match dropLit litTrue input with
  | some r => some (true, r)
  | none =>
    match dropLit litFalse input with
    | some r => some (false, r)
    | none => none

/-- Expected key literal, then a string literal value. -/
def parseStrField (key input : List Char) : Option (List Char × List Char) :=
  match dropLit key input with
  | some r => readStringLit r
  | none => none

/-- Expected key literal, then a nonnegative integer value. -/
def parseNatField (key input : List Char) : Option (Nat × List Char) :=
  match dropLit key input with
  | some r => readNat r
  | none => none

/-- The five trailing fields of the plan object, after `parts`. -/
def parsePlanTail (parts : List PartEntry)
    (url path nm : List Char) (size : Nat) (r6 : List Char) : Option Plan :=
  match parseStrField keyDestinationJ r6 with
  | none => none
  | some (dst, r7) =>
    match parseNatField keySpeedJ r7 with
    | none => none
    | some (speed, r8) =>
      match parseStrField keyContentTypeJ r8 with
      | none => none
      | some (ct, r9) =>
        match dropLit keyFinishedJ r9 with
        | none => none
        | some r10 =>
          match readBool r10 with
          | none => none
          | some (fin, r11) =>
            match r11 with
            | [c2] =>
              if c2 = rbChar then
                some { url := url, path := path, name := nm, size := size,
                       parts := parts, destination := dst, speed := speed,
                       contentType := ct, finished := fin }
              else none
            | _ => none

/-- `JSON.parse` of the manifest text, restricted to the Plan schema. -/
def parsePlan (input : List Char) : Option Plan :=
  match input with
  | [] => none
  | c :: r0 =>
    if c = lbChar then
      match parseStrField keyUrl r0 with
      | none => none
      | some (url, r1) =>
        match parseStrField keyPathJ r1 with
        | none => none
        | some (path, r2) =>
          match parseStrField keyNameJ r2 with
          | none => none
          | some (nm, r3) =>
            match parseNatField keySizeJ r3 with
            | none => none
            | some (size, r4) =>
              match dropLit keyPartsJ r4 with
              | none => none
              | some r5 =>
                match readParts r5 with
                | none => none
                | some (parts, r6) => parsePlanTail parts url path nm size r6
    else none

/-- `encode`: JSON text → UTF-8 bytes → reverse → lowercase hex. -/
def encodePlan (p : Plan) : List Char := encodeHex (utf8Bytes (renderPlan p))

/-- `decode` (`File.validate`): hex → bytes → reverse → UTF-8 text →
`JSON.parse`. -/
def decodePlan (cs : List Char) : Option Plan :=
  match decodeHexReversed cs with
  | none => none
  | some bs =>
    match bytesToChars bs with
    | none => none
    | some chars => parsePlan chars

/-- A character `JSON.stringify` emits verbatim inside a string literal:
printable ASCII other than `"` and `\`. -/
def jsonSafeChar (c : Char) : Bool :=
  decide (32 ≤ c.toNat) && decide (c.toNat < 128) && decide (c ≠ '"') && decide (c ≠ '\\')

def strOKb (cs : List Char) : Bool := cs.all jsonSafeChar

/-- A valid Plan: every string field serializes verbatim (printable ASCII,
no escapes), and the numeric fields are nonnegative integers by type. -/
def planValid (p : Plan) : Bool :=
  strOKb p.url && strOKb p.path && strOKb p.name && strOKb p.destination &&
  strOKb p.contentType && p.parts.all (fun e => strOKb e.path)

/-! ### Round-trip lemmas: hex and UTF-8 layers -/

theorem hexDigitVal_hexDigitChar : ∀ n, n < 16 → hexDigitVal (hexDigitChar n) = some n := by
  decide

theorem hexPairs_flatMap (bs : List Nat) (h : ∀ b ∈ bs, b < 256) :
    hexPairs (bs.flatMap byteHex) = some bs := by
  induction bs with
  | nil => rfl
  | cons b t ih =>
    have hb : b < 256 := h b (List.mem_cons_self _ _)
    have h1 : b / 16 < 16 := by omega
    have h2 : b % 16 < 16 := by omega
    have ht := ih (fun x hx => h x (List.mem_cons_of_mem _ hx))
    have hstep : hexPairs ((b :: t).flatMap byteHex)
        = match hexDigitVal (hexDigitChar (b / 16)), hexDigitVal (hexDigitChar (b % 16)),
            hexPairs (t.flatMap byteHex) with
          | some a, some b2, some t2 => some ((16 * a + b2) :: t2)
          | _, _, _ => none := rfl
    rw [hstep, hexDigitVal_hexDigitChar _ h1, hexDigitVal_hexDigitChar _ h2, ht]
    show some ((16 * (b / 16) + b % 16) :: t) = some (b :: t)
    have hval : 16 * (b / 16) + b % 16 = b := by omega
    rw [hval]

theorem decodeHexReversed_encodeHex (bs : List Nat) (h : ∀ b ∈ bs, b < 256) :
    decodeHexReversed (encodeHex bs) = some bs := by
  rw [decodeHexReversed, encodeHex,
    hexPairs_flatMap bs.reverse (fun b hb => h b (List.mem_reverse.mp hb))]
  simp

theorem bytesToChars_utf8 (cs : List Char) (h : ∀ c ∈ cs, c.toNat < 128) :
    bytesToChars (utf8Bytes cs) = some cs := by
  have hall : (utf8Bytes cs).all (fun b => decide (b < 128)) = true := by
    rw [List.all_eq_true]
    intro b hb
    rw [utf8Bytes, List.mem_map] at hb
    obtain ⟨c, hc, rfl⟩ := hb
    simpa using h c hc
  rw [bytesToChars, if_pos hall, utf8Bytes, List.map_map]
  have hmap : List.map (Char.ofNat ∘ Char.toNat) cs = List.map id cs :=
    List.map_congr_left (fun c _ => Char.ofNat_toNat c)
  rw [hmap, List.map_id]

/-! ### Round-trip lemmas: decimal digits -/

theorem digitChar10_isDigit : ∀ d, d < 10 → (digitChar10 d).isDigit = true := by
  decide

theorem digitChar10_toNat : ∀ d, d < 10 → (digitChar10 d).toNat = 48 + d := by
  decide

theorem natChars_digits (n : Nat) : ∀ c ∈ natChars n, c.isDigit = true := by
  intro c hc
  by_cases h : n = 0
  · subst h
    have h0 : natChars 0 = ['0'] := rfl
    rw [h0, List.mem_singleton] at hc
    subst hc
    decide
  · rw [natChars, if_neg h] at hc
    rw [List.mem_map] at hc
    obtain ⟨d, hd, rfl⟩ := hc
    rw [List.mem_reverse] at hd
    exact digitChar10_isDigit d (Nat.digits_lt_base (by norm_num) hd)

theorem natChars_ne_nil (n : Nat) : natChars n ≠ [] := by
  by_cases h : n = 0
  · subst h
    simp [natChars]
  · rw [natChars, if_neg h]
    have hd : Nat.digits 10 n ≠ [] := Nat.digits_ne_nil_iff_ne_zero.mpr h
    simp [hd]

theorem digitsToNat_rev (ds : List Nat) (h : ∀ d ∈ ds, d < 10) :
    digitsToNat (ds.reverse.map digitChar10) = Nat.ofDigits 10 ds := by
  induction ds with
  | nil => rfl
  | cons d t ih =>
    have hd : d < 10 := h d (List.mem_cons_self _ _)
    have ht := ih (fun x hx => h x (List.mem_cons_of_mem _ hx))
    rw [List.reverse_cons, List.map_append, digitsToNat, List.foldl_append]
    rw [digitsToNat] at ht
    rw [ht]
    simp only [List.map_cons, List.map_nil, List.foldl_cons, List.foldl_nil]
    rw [digitChar10_toNat d hd, Nat.ofDigits_cons]
    omega

theorem digitsToNat_natChars (n : Nat) : digitsToNat (natChars n) = n := by
  by_cases h : n = 0
  · subst h
    decide
  · rw [natChars, if_neg h,
      digitsToNat_rev _ (fun d hd => Nat.digits_lt_base (by norm_num) hd),
      Nat.ofDigits_digits]

/-! ### Round-trip lemmas: token readers -/

theorem isDigit_ne_minus (c : Char) (h : c.isDigit = true) : c ≠ '-' := by
  rintro rfl
  exact absurd h (by decide)

theorem isDigit_ne_quote (c : Char) (h : c.isDigit = true) : c ≠ '"' := by
  rintro rfl
  exact absurd h (by decide)

/-- A concrete head that is no digit bounds the greedy number reader. -/
theorem headNotDigit_cons (c : Char) (h : c.isDigit = false) (t : List Char) :
    ∀ d, (c :: t).head? = some d → d.isDigit = false := by
  intro d hd
  rw [List.head?_cons, Option.some_inj] at hd
  subst hd
  exact h

theorem dropLit_append (lit rest : List Char) : dropLit lit (lit ++ rest) = some rest := by
  induction lit with
  | nil => rfl
  | cons c cs ih => simp [dropLit, ih]

theorem readStrBody_append (s rest : List Char) (h : ∀ c ∈ s, c ≠ '"') :
    readStrBody (s ++ '"' :: rest) = some (s, rest) := by
  induction s with
  | nil => simp [readStrBody]
  | cons c cs ih =>
    have hc : c ≠ '"' := h c (List.mem_cons_self _ _)
    rw [List.cons_append, readStrBody, if_neg hc,
      ih (fun x hx => h x (List.mem_cons_of_mem _ hx))]

theorem readStringLit_quoteJ (s rest : List Char) (h : ∀ c ∈ s, c ≠ '"') :
    readStringLit (quoteJ s ++ rest) = some (s, rest) := by
  have hshape : quoteJ s ++ rest = '"' :: (s ++ '"' :: rest) := by
    simp [quoteJ]
  rw [hshape, readStringLit, if_pos rfl, readStrBody_append s rest h]

theorem readDigits_append (ds rest : List Char) (hds : ∀ c ∈ ds, c.isDigit = true)
    (hrest : ∀ c, rest.head? = some c → c.isDigit = false) :
    readDigits (ds ++ rest) = (ds, rest) := by
  induction ds with
  | nil =>
    cases rest with
    | nil => rfl
    | cons c t =>
      have hc := hrest c rfl
      simp [readDigits, hc]
  | cons c cs ih =>
    have hc : c.isDigit = true := hds c (List.mem_cons_self _ _)
    rw [List.cons_append, readDigits, if_pos hc,
      ih (fun x hx => hds x (List.mem_cons_of_mem _ hx))]

theorem readNat_natChars (n : Nat) (rest : List Char)
    (hrest : ∀ c, rest.head? = some c → c.isDigit = false) :
    readNat (natChars n ++ rest) = some (n, rest) := by
  rw [readNat, readDigits_append (natChars n) rest (natChars_digits n) hrest]
  show (if natChars n = [] then none else some (digitsToNat (natChars n), rest))
    = some (n, rest)
  rw [if_neg (natChars_ne_nil n), digitsToNat_natChars]

theorem readInt_intChars (i : Int) (rest : List Char)
    (hrest : ∀ c, rest.head? = some c → c.isDigit = false) :
    readInt (intChars i ++ rest) = some (i, rest) := by
  by_cases hi : i < 0
  · rw [intChars, if_pos hi, List.cons_append, readInt, if_pos rfl,
      readNat_natChars i.natAbs rest hrest]
    show some (-(i.natAbs : Int), rest) = some (i, rest)
    have : -(i.natAbs : Int) = i := by omega
    rw [this]
  · rw [intChars, if_neg hi]
    obtain ⟨c, cs, hnc⟩ := List.exists_cons_of_ne_nil (natChars_ne_nil i.toNat)
    have hcd : c.isDigit = true := natChars_digits i.toNat c (by rw [hnc]; exact List.mem_cons_self _ _)
    have hcm : c ≠ '-' := isDigit_ne_minus c hcd
    rw [hnc, List.cons_append, readInt, if_neg hcm, ← List.cons_append, ← hnc,
      readNat_natChars i.toNat rest hrest]
    show some ((i.toNat : Int), rest) = some (i, rest)
    have : (i.toNat : Int) = i := Int.toNat_of_nonneg (le_of_not_lt hi)
    rw [this]

theorem readBool_litTrue (rest : List Char) :
    readBool (litTrue ++ rest) = some (true, rest) := by
  rw [readBool, dropLit_append litTrue rest]

theorem readBool_litFalse (rest : List Char) :
    readBool (litFalse ++ rest) = some (false, rest) := by
  have h1 : dropLit litTrue (litFalse ++ rest) = none := by
    simp [litTrue, litFalse, dropLit]
  rw [readBool, h1, dropLit_append litFalse rest]

/-! ### Round-trip lemmas: part entries -/

theorem readEntry_render (idx : Nat) (e : PartEntry) (rest : List Char)
    (hp : ∀ c ∈ e.path, c ≠ '"') :
    readEntry idx (renderEntry idx e ++ rest) = some (e, rest) := by
  have hq : ∀ c ∈ natChars idx, c ≠ '"' :=
    fun c hc => isDigit_ne_quote c (natChars_digits idx c hc)
  have hshape : renderEntry idx e ++ rest
      = quoteJ (natChars idx) ++ (':' :: '[' :: (quoteJ e.path ++ (',' :: '[' ::
          (intChars e.startB ++ (',' :: (intChars e.endB ++ (']' :: ']' :: rest))))))) := by
    simp [renderEntry, List.append_assoc]
  have h1 := readStringLit_quoteJ (natChars idx)
    (':' :: '[' :: (quoteJ e.path ++ (',' :: '[' ::
      (intChars e.startB ++ (',' :: (intChars e.endB ++ (']' :: ']' :: rest))))))) hq
  have h2 := readStringLit_quoteJ e.path
    (',' :: '[' :: (intChars e.startB ++ (',' :: (intChars e.endB ++ (']' :: ']' :: rest))))) hp
  have h3 := readInt_intChars e.startB
    (',' :: (intChars e.endB ++ (']' :: ']' :: rest)))
    (headNotDigit_cons ',' (by decide) _)
  have h4 := readInt_intChars e.endB (']' :: ']' :: rest)
    (headNotDigit_cons ']' (by decide) _)
  rw [hshape, readEntry]
  simp [h1, h2, h3, h4]

theorem readEntries_render (ps : List PartEntry) : ∀ (idx fuel : Nat) (rest : List Char),
    ps ≠ [] → ps.length ≤ fuel →
    (∀ e ∈ ps, ∀ c ∈ e.path, c ≠ '"') →
    (∀ c, rest.head? = some c → c ≠ ',') →
    readEntries fuel idx (renderEntries idx ps ++ rest) = some (ps, rest) := by
  induction ps with
  | nil => intro idx fuel rest hne; exact absurd rfl hne
  | cons e t ih =>
    intro idx fuel rest hne hfuel hstr hrest
    have hf1 : 1 ≤ fuel := le_trans (by simp) hfuel
    obtain ⟨fuel', rfl⟩ : ∃ f, fuel = f + 1 := ⟨fuel - 1, by omega⟩
    have he : ∀ c ∈ e.path, c ≠ '"' := hstr e (List.mem_cons_self _ _)
    cases t with
    | nil =>
      have hr : renderEntries idx [e] = renderEntry idx e := rfl
      rw [hr]
      have h1 := readEntry_render idx e rest he
      rw [readEntries, h1]
      cases rest with
      | nil => rfl
      | cons c t2 =>
        have hc : c ≠ ',' := hrest c rfl
        simp [hc]
    | cons e2 t2 =>
      have hr : renderEntries idx (e :: e2 :: t2)
          = renderEntry idx e ++ ',' :: renderEntries (idx + 1) (e2 :: t2) := rfl
      rw [hr]
      have hshape : (renderEntry idx e ++ ',' :: renderEntries (idx + 1) (e2 :: t2)) ++ rest
          = renderEntry idx e ++ (',' :: (renderEntries (idx + 1) (e2 :: t2) ++ rest)) := by
        simp [List.append_assoc]
      rw [hshape]
      have h1 := readEntry_render idx e
        (',' :: (renderEntries (idx + 1) (e2 :: t2) ++ rest)) he
      have hlen : (e2 :: t2).length ≤ fuel' := by
        have := hfuel
        simp only [List.length_cons] at this ⊢
        omega
      have ih' := ih (idx + 1) fuel' rest (by simp) hlen
        (fun x hx => hstr x (List.mem_cons_of_mem _ hx)) hrest
      rw [readEntries, h1]
      simp [ih']

theorem renderEntry_length_pos (idx : Nat) (e : PartEntry) :
    1 ≤ (renderEntry idx e).length := by
  simp [renderEntry, quoteJ]

theorem renderEntries_length (ps : List PartEntry) :
    ∀ idx : Nat, ps.length ≤ (renderEntries idx ps).length := by
  induction ps with
  | nil => intro idx; simp [renderEntries]
  | cons e t ih =>
    intro idx
    cases t with
    | nil => simpa [renderEntries] using renderEntry_length_pos idx e
    | cons e2 t2 =>
      have hr : renderEntries idx (e :: e2 :: t2)
          = renderEntry idx e ++ ',' :: renderEntries (idx + 1) (e2 :: t2) := rfl
      have h1 := renderEntry_length_pos idx e
      have h2 := ih (idx + 1)
      rw [hr]
      simp only [List.length_append, List.length_cons] at h2 ⊢
      omega

theorem renderEntries_cons_shape (idx : Nat) (e : PartEntry) (t : List PartEntry) :
    ∃ X, renderEntries idx (e :: t) = '"' :: X := by
  cases t with
  | nil =>
    refine ⟨natChars idx ++ ['"'] ++ (':' :: '[' :: (quoteJ e.path ++ (',' :: '[' ::
      (intChars e.startB ++ (',' :: (intChars e.endB ++ [']', ']'])))))), ?_⟩
    simp [renderEntries, renderEntry, quoteJ, List.append_assoc]
  | cons e2 t2 =>
    have hr : renderEntries idx (e :: e2 :: t2)
        = renderEntry idx e ++ ',' :: renderEntries (idx + 1) (e2 :: t2) := rfl
    refine ⟨(natChars idx ++ ['"'] ++ (':' :: '[' :: (quoteJ e.path ++ (',' :: '[' ::
      (intChars e.startB ++ (',' :: (intChars e.endB ++ [']', ']'])))))))
      ++ ',' :: renderEntries (idx + 1) (e2 :: t2), ?_⟩
    rw [hr]
    simp [renderEntry, quoteJ, List.append_assoc]

theorem readParts_render (ps : List PartEntry) (rest : List Char)
    (hstr : ∀ e ∈ ps, ∀ c ∈ e.path, c ≠ '"') :
    readParts (renderParts ps ++ rest) = some (ps, rest) := by
  cases ps with
  | nil =>
    have h0 : renderParts [] ++ rest = lbChar :: rbChar :: rest := rfl
    rw [h0, readParts]
    simp
  | cons e t =>
    have hshape : renderParts (e :: t) ++ rest
        = lbChar :: (renderEntries 0 (e :: t) ++ rbChar :: rest) := by
      simp [renderParts, List.append_assoc]
    obtain ⟨X, hX⟩ := renderEntries_cons_shape 0 e t
    have hXfull : renderEntries 0 (e :: t) ++ rbChar :: rest
        = '"' :: (X ++ rbChar :: rest) := by
      rw [hX, List.cons_append]
    have hqr : ('"' : Char) ≠ rbChar := by decide
    have hfuel : (e :: t).length ≤ (renderEntries 0 (e :: t) ++ rbChar :: rest).length := by
      have := renderEntries_length (e :: t) 0
      simp only [List.length_append, List.length_cons] at this ⊢
      omega
    have hread := readEntries_render (e :: t) 0
      (renderEntries 0 (e :: t) ++ rbChar :: rest).length (rbChar :: rest)
      (by simp) hfuel hstr
      (fun c hc => by
        rw [List.head?_cons, Option.some_inj] at hc
        subst hc
        decide)
    rw [hshape, hXfull]
    simp only [readParts, if_pos rfl, if_neg hqr]
    rw [← hXfull, hread]
    simp

/-! ### Round-trip lemmas: plan fields -/

theorem headNotDigit_of_eq_cons (rest : List Char) (c0 : Char) (t : List Char)
    (heq : rest = c0 :: t) (h : c0.isDigit = false) :
    ∀ c, rest.head? = some c → c.isDigit = false := by
  subst heq
  exact headNotDigit_cons c0 h t

theorem parseStrField_render (key s rest : List Char) (h : ∀ c ∈ s, c ≠ '"') :
    parseStrField key (key ++ (quoteJ s ++ rest)) = some (s, rest) := by
  simp only [parseStrField, dropLit_append key (quoteJ s ++ rest)]
  exact readStringLit_quoteJ s rest h

theorem parseNatField_render (key : List Char) (n : Nat) (rest : List Char)
    (hrest : ∀ c, rest.head? = some c → c.isDigit = false) :
    parseNatField key (key ++ (natChars n ++ rest)) = some (n, rest) := by
  simp only [parseNatField, dropLit_append key (natChars n ++ rest)]
  exact readNat_natChars n rest hrest

theorem strOKb_no_quote (cs : List Char) (h : strOKb cs = true) :
    ∀ c ∈ cs, c ≠ '"' := by
  intro c hc
  have hsafe := List.all_eq_true.mp h c hc
  simp only [jsonSafeChar, Bool.and_eq_true, decide_eq_true_eq] at hsafe
  exact hsafe.1.2

theorem strOKb_ascii (cs : List Char) (h : strOKb cs = true) :
    ∀ c ∈ cs, c.toNat < 128 := by
  intro c hc
  have hsafe := List.all_eq_true.mp h c hc
  simp only [jsonSafeChar, Bool.and_eq_true, decide_eq_true_eq] at hsafe
  exact hsafe.1.1.2

theorem readBool_finished (b : Bool) (rest : List Char) :
    readBool ((if b then litTrue else litFalse) ++ rest) = some (b, rest) := by
  cases b with
  | true => simpa using readBool_litTrue rest
  | false => simpa using readBool_litFalse rest

theorem parsePlanTail_render (p : Plan)
    (hdest : ∀ c ∈ p.destination, c ≠ '"') (hct : ∀ c ∈ p.contentType, c ≠ '"') :
    parsePlanTail p.parts p.url p.path p.name p.size
      (keyDestinationJ ++ (quoteJ p.destination ++ (keySpeedJ ++ (natChars p.speed ++
        (keyContentTypeJ ++ (quoteJ p.contentType ++ (keyFinishedJ ++
          ((if p.finished then litTrue else litFalse) ++ [rbChar]))))))))
      = some p := by
  have h1 := parseStrField_render keyDestinationJ p.destination
    (keySpeedJ ++ (natChars p.speed ++ (keyContentTypeJ ++ (quoteJ p.contentType ++
      (keyFinishedJ ++ ((if p.finished then litTrue else litFalse) ++ [rbChar])))))) hdest
  have h2 := parseNatField_render keySpeedJ p.speed
    (keyContentTypeJ ++ (quoteJ p.contentType ++
      (keyFinishedJ ++ ((if p.finished then litTrue else litFalse) ++ [rbChar]))))
    (headNotDigit_of_eq_cons _ ',' _ rfl (by decide))
  have h3 := parseStrField_render keyContentTypeJ p.contentType
    (keyFinishedJ ++ ((if p.finished then litTrue else litFalse) ++ [rbChar])) hct
  have h4 := dropLit_append keyFinishedJ
    ((if p.finished then litTrue else litFalse) ++ [rbChar])
  have h5 := readBool_finished p.finished [rbChar]
  simp only [parsePlanTail, h1, h2, h3, h4, h5, if_pos rfl]
  simp

theorem parsePlan_renderPlan (p : Plan) (hv : planValid p = true) :
    parsePlan (renderPlan p) = some p := by
  have hv' := hv
  simp only [planValid, Bool.and_eq_true] at hv'
  obtain ⟨⟨⟨⟨⟨hurl, hpath⟩, hname⟩, hdest⟩, hct⟩, hparts⟩ := hv'
  have hpartsq : ∀ e ∈ p.parts, ∀ c ∈ e.path, c ≠ '"' := by
    intro e he
    exact strOKb_no_quote _ (List.all_eq_true.mp hparts e he)
  have hshape : renderPlan p = lbChar :: (keyUrl ++ (quoteJ p.url ++ (keyPathJ ++
      (quoteJ p.path ++ (keyNameJ ++ (quoteJ p.name ++ (keySizeJ ++ (natChars p.size ++
      (keyPartsJ ++ (renderParts p.parts ++ (keyDestinationJ ++ (quoteJ p.destination ++
      (keySpeedJ ++ (natChars p.speed ++ (keyContentTypeJ ++ (quoteJ p.contentType ++
      (keyFinishedJ ++ ((if p.finished then litTrue else litFalse) ++
        [rbChar])))))))))))))))))) := by
    simp [renderPlan, List.append_assoc]
  have h1 := parseStrField_render keyUrl p.url
    (keyPathJ ++ (quoteJ p.path ++ (keyNameJ ++ (quoteJ p.name ++ (keySizeJ ++
      (natChars p.size ++ (keyPartsJ ++ (renderParts p.parts ++ (keyDestinationJ ++
      (quoteJ p.destination ++ (keySpeedJ ++ (natChars p.speed ++ (keyContentTypeJ ++
      (quoteJ p.contentType ++ (keyFinishedJ ++ ((if p.finished then litTrue
        else litFalse) ++ [rbChar]))))))))))))))))
    (strOKb_no_quote _ hurl)
  have h2 := parseStrField_render keyPathJ p.path
    (keyNameJ ++ (quoteJ p.name ++ (keySizeJ ++ (natChars p.size ++ (keyPartsJ ++
      (renderParts p.parts ++ (keyDestinationJ ++ (quoteJ p.destination ++ (keySpeedJ ++
      (natChars p.speed ++ (keyContentTypeJ ++ (quoteJ p.contentType ++ (keyFinishedJ ++
      ((if p.finished then litTrue else litFalse) ++ [rbChar]))))))))))))))
    (strOKb_no_quote _ hpath)
  have h3 := parseStrField_render keyNameJ p.name
    (keySizeJ ++ (natChars p.size ++ (keyPartsJ ++ (renderParts p.parts ++
      (keyDestinationJ ++ (quoteJ p.destination ++ (keySpeedJ ++ (natChars p.speed ++
      (keyContentTypeJ ++ (quoteJ p.contentType ++ (keyFinishedJ ++
      ((if p.finished then litTrue else litFalse) ++ [rbChar]))))))))))))
    (strOKb_no_quote _ hname)
  have h4 := parseNatField_render keySizeJ p.size
    (keyPartsJ ++ (renderParts p.parts ++ (keyDestinationJ ++ (quoteJ p.destination ++
      (keySpeedJ ++ (natChars p.speed ++ (keyContentTypeJ ++ (quoteJ p.contentType ++
      (keyFinishedJ ++ ((if p.finished then litTrue else litFalse) ++ [rbChar]))))))))))
    (headNotDigit_of_eq_cons _ ',' _ rfl (by decide))
  have h5 := dropLit_append keyPartsJ
    (renderParts p.parts ++ (keyDestinationJ ++ (quoteJ p.destination ++ (keySpeedJ ++
      (natChars p.speed ++ (keyContentTypeJ ++ (quoteJ p.contentType ++ (keyFinishedJ ++
      ((if p.finished then litTrue else litFalse) ++ [rbChar])))))))))
  have h6 := readParts_render p.parts
    (keyDestinationJ ++ (quoteJ p.destination ++ (keySpeedJ ++ (natChars p.speed ++
      (keyContentTypeJ ++ (quoteJ p.contentType ++ (keyFinishedJ ++
      ((if p.finished then litTrue else litFalse) ++ [rbChar]))))))))
    hpartsq
  have htail := parsePlanTail_render p (strOKb_no_quote _ hdest) (strOKb_no_quote _ hct)
  rw [hshape]
  simp only [parsePlan, if_pos rfl, h1, h2, h3, h4, h5, h6, htail]
  simp

/-! ### ASCII bounds on the rendered plan -/

def asciiOK (cs : List Char) : Bool := cs.all (fun c => decide (c.toNat < 128))

theorem asciiOK_append (a b : List Char) :
    asciiOK (a ++ b) = (asciiOK a && asciiOK b) := by
  simp [asciiOK, List.all_append]

theorem asciiOK_cons (c : Char) (t : List Char) :
    asciiOK (c :: t) = (decide (c.toNat < 128) && asciiOK t) := by
  simp [asciiOK]

theorem natChars_ascii (n : Nat) : ∀ c ∈ natChars n, c.toNat < 128 := by
  intro c hc
  by_cases h : n = 0
  · subst h
    have h0 : natChars 0 = ['0'] := rfl
    rw [h0, List.mem_singleton] at hc
    subst hc
    decide
  · rw [natChars, if_neg h, List.mem_map] at hc
    obtain ⟨d, hd, rfl⟩ := hc
    rw [List.mem_reverse] at hd
    have hlt := Nat.digits_lt_base (by norm_num) hd
    rw [digitChar10_toNat d hlt]
    omega

theorem asciiOK_natChars (n : Nat) : asciiOK (natChars n) = true :=
  List.all_eq_true.mpr (fun c hc => by simpa using natChars_ascii n c hc)

theorem asciiOK_intChars (i : Int) : asciiOK (intChars i) = true := by
  by_cases hi : i < 0
  · rw [intChars, if_pos hi, asciiOK_cons, asciiOK_natChars]
    decide
  · rw [intChars, if_neg hi]
    exact asciiOK_natChars _

theorem asciiOK_of_strOKb (s : List Char) (h : strOKb s = true) : asciiOK s = true :=
  List.all_eq_true.mpr (fun c hc => by simpa using strOKb_ascii s h c hc)

theorem asciiOK_quoteJ (s : List Char) (h : asciiOK s = true) :
    asciiOK (quoteJ s) = true := by
  simp only [quoteJ, asciiOK_append, asciiOK_cons, h]
  all_goals decide

theorem asciiOK_renderEntry (idx : Nat) (e : PartEntry)
    (h : asciiOK e.path = true) : asciiOK (renderEntry idx e) = true := by
  simp only [renderEntry, asciiOK_append, asciiOK_cons,
    asciiOK_quoteJ _ (asciiOK_natChars idx), asciiOK_quoteJ _ h,
    asciiOK_intChars, asciiOK_natChars]
  all_goals decide

theorem asciiOK_renderEntries (ps : List PartEntry)
    (h : ∀ e ∈ ps, asciiOK e.path = true) :
    ∀ idx, asciiOK (renderEntries idx ps) = true := by
  induction ps with
  | nil => intro idx; rfl
  | cons e t ih =>
    intro idx
    have he := h e (List.mem_cons_self _ _)
    cases t with
    | nil => simpa [renderEntries] using asciiOK_renderEntry idx e he
    | cons e2 t2 =>
      have hr : renderEntries idx (e :: e2 :: t2)
          = renderEntry idx e ++ ',' :: renderEntries (idx + 1) (e2 :: t2) := rfl
      simp only [hr, asciiOK_append, asciiOK_cons,
        asciiOK_renderEntry idx e he,
        ih (fun x hx => h x (List.mem_cons_of_mem _ hx)) (idx + 1)]
      all_goals decide

theorem asciiOK_renderParts (ps : List PartEntry)
    (h : ∀ e ∈ ps, asciiOK e.path = true) :
    asciiOK (renderParts ps) = true := by
  simp only [renderParts, asciiOK_append, asciiOK_cons,
    asciiOK_renderEntries ps h 0]
  all_goals decide

theorem renderPlan_ascii (p : Plan) (hv : planValid p = true) :
    ∀ c ∈ renderPlan p, c.toNat < 128 := by
  have hv' := hv
  simp only [planValid, Bool.and_eq_true] at hv'
  obtain ⟨⟨⟨⟨⟨hurl, hpath⟩, hname⟩, hdest⟩, hct⟩, hparts⟩ := hv'
  have hparts' : ∀ e ∈ p.parts, asciiOK e.path = true := by
    intro e he
    exact asciiOK_of_strOKb _ (List.all_eq_true.mp hparts e he)
  have hfin : asciiOK (if p.finished then litTrue else litFalse) = true := by
    cases p.finished <;> decide
  have hall : asciiOK (renderPlan p) = true := by
    simp only [renderPlan, asciiOK_append, asciiOK_cons,
      asciiOK_quoteJ _ (asciiOK_of_strOKb _ hurl),
      asciiOK_quoteJ _ (asciiOK_of_strOKb _ hpath),
      asciiOK_quoteJ _ (asciiOK_of_strOKb _ hname),
      asciiOK_quoteJ _ (asciiOK_of_strOKb _ hdest),
      asciiOK_quoteJ _ (asciiOK_of_strOKb _ hct),
      asciiOK_natChars, asciiOK_renderParts p.parts hparts', hfin]
    all_goals decide
  intro c hc
  simpa using List.all_eq_true.mp hall c hc

/-! ### The manifest round-trip -/

/-- Claim C2: for every valid Plan (string fields that `JSON.stringify`
emits verbatim — printable ASCII without `"` or `\` — and integral
nonnegative `size` and `speed`), decoding the encoded manifest yields the
Plan back: `encode` is UTF-8 JSON → reversed bytes → lowercase hex, and
`File.validate` inverts exactly those steps. -/
theorem manifest_roundtrip (p : Plan) (hv : planValid p = true) :
    decodePlan (encodePlan p) = some p := by
  have h1 : decodeHexReversed (encodeHex (utf8Bytes (renderPlan p)))
      = some (utf8Bytes (renderPlan p)) := by
    apply decodeHexReversed_encodeHex
    intro b hb
    rw [utf8Bytes, List.mem_map] at hb
    obtain ⟨c, hc, rfl⟩ := hb
    have := renderPlan_ascii p hv c hc
    omega
  have h2 : bytesToChars (utf8Bytes (renderPlan p)) = some (renderPlan p) :=
    bytesToChars_utf8 _ (renderPlan_ascii p hv)
  simp only [encodePlan, decodePlan, h1, h2, parsePlan_renderPlan p hv]

/-- A small concrete valid plan. -/
def samplePlan : Plan :=
  { url := ['u'], path := ['p'], name := ['n'], size := 4,
    parts := [⟨['q'], 0, 3⟩], destination := ['d'], speed := 5,
    contentType := ['c'], finished := false }

/-- Witness for C2 at a concrete plan. -/
theorem manifest_roundtrip_witness :
    planValid samplePlan = true ∧
    decodePlan (encodePlan samplePlan) = some samplePlan :=
  ⟨by decide, manifest_roundtrip samplePlan (by decide)⟩

end Prometeo
